import Mathlib

/-
Verification development for the DataFinder scraper (src/scrape.mjs).

The sitemap-crawl pipeline of `main` is embedded shallowly:
  * the in-page extractor passed to `p.evaluate` (lines 172-351) becomes a
    pure function over a `PageSnapshot`, a structured snapshot of the
    queried DOM state and parsed scripts;
  * JSON values parsed from JSON-LD blocks become the inductive `JVal`
    (numbers are modelled as integers; the record claims only ever
    distinguish empty from non-empty price strings);
  * `decodeHtml` (a DOM textarea entity-decode) is kept abstract as a
    `String → String` parameter `dh`; its falsy guard (`if (!html) return ''`)
    is modelled explicitly;
  * the `<loc>` regex scan, the Set-based URL dedup, the batch loop and the
    CSV formatting become list/string functions.
JS strings that are used only in truthiness tests and `||` chains are
modelled as `String` with `""` for both `''`/`null`/`undefined` (all the
falsy cases that arise at those use sites).
-/

namespace DataFinder

/-! ### JS string primitives -/

/-- ASCII whitespace as matched by `\s` and removed by `String.prototype.trim`
(the Unicode space classes are not needed by any input considered here). -/
def isJsWs (c : Char) : Bool :=
  c = ' ' || c = '\t' || c = '\n' || c = '\r' || c = '\x0b' || c = '\x0c'

/-- Model of `String.prototype.trim` on char lists. -/
def trimChars (l : List Char) : List Char :=
  ((l.dropWhile isJsWs).reverse.dropWhile isJsWs).reverse

/-- Model of `String.prototype.trim`. -/
def jsTrim (s : String) : String := (trimChars s.data).asString

/-- Substring test on char lists: model of `String.prototype.includes`. -/
def hasSub (needle : List Char) : List Char → Bool
  | [] => needle.isEmpty
  | c :: t => needle.isPrefixOf (c :: t) || hasSub needle t

/-- Model of `hay.includes(needle)` for strings. -/
def strContains (needle hay : String) : Bool := hasSub needle.data hay.data

/-- Model of `String.prototype.toLowerCase` (ASCII-relevant part). -/
def jsLower (s : String) : String := (s.data.map Char.toLower).asString

/-- Model of `str.split(sep)` for a one-character separator: splits on every
occurrence, keeping empty pieces, never returning an empty list. -/
def jsSplitChar (sep : Char) : List Char → List (List Char)
  | [] => [[]]
  | c :: t =>
    if c = sep then [] :: jsSplitChar sep t
    else
      match jsSplitChar sep t with
      | [] => [[c]]
      | h :: r => (c :: h) :: r

/-- Model of `availability.split('/').pop()` guarded by `includes('/')`
(scrape.mjs lines 208-210 and 321-323), on char lists. -/
def splitPopSlashL (l : List Char) : List Char :=
  if l.contains '/' then (jsSplitChar '/' l).getLastD [] else l

/-- Keep only the final path segment: the string-level wrapper. -/
def splitPopSlash (s : String) : String := (splitPopSlashL s.data).asString

/-! ### JSON values (results of `JSON.parse` on JSON-LD blocks) -/

/-- Parsed JSON value. Numbers are modelled as integers: the only numeric
fields the extractor reads are prices, and the claims below never depend on
non-integral numeric formatting. Arrays and objects are by reference lists. -/
inductive JVal where
  | jnull : JVal
  | jbool : Bool → JVal
  | jnum : Int → JVal
  | jstr : String → JVal
  | jarr : List JVal → JVal
  | jobj : List (String × JVal) → JVal

open JVal

/-- JS truthiness of a `JVal` (`NaN` does not arise in the model). -/
def truthy : JVal → Bool
  | jnull => false
  | jbool b => b
  | jnum n => n ≠ 0
  | jstr s => s ≠ ""
  | jarr _ => true
  | jobj _ => true

/-- Property access `v[k]`: `undefined`/`null` both collapse to `jnull`
(every use site only tests truthiness or feeds a `||` chain). -/
def jget (v : JVal) (k : String) : JVal :=
  match v with
  | jobj fs =>
    match fs.find? (fun p => p.1 = k) with
    | some p => p.2
    | none => jnull
  | _ => jnull

/-- Model of `a || b` on JS values. -/
def jsOrV (a b : JVal) : JVal := if truthy a then a else b

mutual
/-- Model of `String(v)` for the values that can reach it here. -/
def jsStringOf : JVal → String
  | jnull => "null"
  | jbool b => if b then "true" else "false"
  | jnum n => toString n
  | jstr s => s
  | jarr l => jsJoinVals l
  | jobj _ => "[object Object]"

/-- Model of `Array.prototype.join(',')` as applied by `String(array)`:
`null` elements render as the empty string. -/
def jsJoinVals : List JVal → String
  | [] => ""
  | [jnull] => ""
  | [v] => jsStringOf v
  | jnull :: t => "," ++ jsJoinVals t
  | v :: t => jsStringOf v ++ "," ++ jsJoinVals t
end

/-- The test `v === 'Product'`, also used elementwise by
`types.includes('Product')` (strict equality only matches a string). -/
def isProductStr : JVal → Bool
  | jstr s => s = "Product"
  | _ => false

/-! ### Extracted records and page snapshots -/

/-- The record built by the extractor: `{ name, sku, price, availability }`,
every field a string, empty when unresolved. -/
structure ProductRecord where
  name : String
  sku : String
  price : String
  availability : String
deriving DecidableEq, Repr

/-- An element as the extractor reads it: its `textContent` and the value of
its `content` attribute (`none` for `getAttribute` returning `null`). -/
structure Elem where
  text : String
  contentAttr : Option String
deriving DecidableEq, Repr

/-- First variant of the in-page Shopify product metadata object. "" models
an absent/empty string field; `vprice` is the minor-unit integer price. -/
structure ShopifyVariant where
  vname : String
  vsku : String
  vprice : Option Nat
deriving DecidableEq, Repr

/-- The in-page Shopify product metadata object
(`window.meta?.product || window.ShopifyAnalytics?.meta?.product`). -/
structure ShopifyProduct where
  ptype : String
  handle : String
  variants : List ShopifyVariant
deriving DecidableEq, Repr

/-- Snapshot of everything the `p.evaluate` extractor reads from the page:
the parse results of the JSON-LD script blocks (`none` = malformed JSON),
the Shopify metadata object if present, the document title, the elements
returned by each `querySelector`, and the body's visible text. -/
structure PageSnapshot where
  jsonLd : List (Option JVal)
  shopifyMeta : Option ShopifyProduct
  title : String
  h1 : Option Elem
  priceMeta : Option Elem
  itempropPrice : Option Elem
  priceClass : Option Elem
  productPriceClass : Option Elem
  dataStock : Option Elem
  availabilityClass : Option Elem
  stockStatus : Option Elem
  formInventory : Option Elem
  skuClass : Option Elem
  itempropSku : Option Elem
  productSku : Option Elem
  variantSku : Option Elem
  bodyText : String

/-- Model of `el?.textContent || ''`. -/
def elText : Option Elem → String
  | some e => e.text
  | none => ""

/-- Model of `el.getAttribute('content')` coerced through a `||` chain. -/
def elContent : Option Elem → String
  | some e => e.contentAttr.getD ""
  | none => ""

/-- Model of a `querySelector(a) || querySelector(b) || ...` chain. -/
def firstElem (l : List (Option Elem)) : Option Elem := l.findSome? id

/-! ### Strategy 1: JSON-LD (`pickProduct`, scrape.mjs lines 182-215) -/

/-- Model of `decodeHtml(html)` where `html` is already a string:
`if (!html) return ''`, then the abstract entity decode `dh`. -/
def decodeS (dh : String → String) (s : String) : String :=
  if s = "" then "" else dh s

/-- Model of `decodeHtml(v || '')` on a raw JS value: falsy values give `''`,
truthy ones are string-coerced then decoded. -/
def decodeJ (dh : String → String) (v : JVal) : String :=
  if truthy v then dh (jsStringOf v) else ""

/-- Availability extraction and normalization from the first offer
(scrape.mjs lines 201-210): `o.availability || ''`; an array is replaced by
its first element (`|| ''`); a non-null object by `.name || ['@id'] || ''`;
then `String(availability || '')` and the final-path-segment reduction. -/
def offerAvailability (o : JVal) : String :=
  let av1 := jsOrV (jget o "availability") (jstr "")
  let av2 :=
    match av1 with
    | jarr l => jsOrV (l.getD 0 jnull) (jstr "")
    | v => v
  let av3 :=
    match av2 with
    | jobj fs => jsOrV (jget (jobj fs) "name") (jsOrV (jget (jobj fs) "@id") (jstr ""))
    | jarr _ => jstr ""
    | v => v
  let s := jsStringOf (jsOrV av3 (jstr ""))
  splitPopSlash s

/-- Price extraction from the first offer (scrape.mjs line 199):
`o.price || (o.priceSpecification && o.priceSpecification.price) || ''`,
string-coerced at extraction time (the raw value is only ever truthiness
tested and finally `String(...)`-coerced, so this is behaviour-preserving
for primitive values). -/
def offerPrice (o : JVal) : String :=
  let ps := jget o "priceSpecification"
  let chain := jsOrV (jget o "price")
      (jsOrV (if truthy ps then jget ps "price" else ps) (jstr ""))
  jsStringOf chain

/-- Model of `pickProduct(j)` (scrape.mjs lines 182-215): find the first
entity of type `Product` in `j` (or, when `j` is an array, among its
elements) and extract name, sku, price and normalized availability. -/
def pickProduct (dh : String → String) (j : JVal) : Option ProductRecord :=
  let arr := match j with | jarr l => l | v => [v]
  arr.findSome? fun obj =>
    let types := jget obj "@type"
    let isProduct :=
      match types with
      | jarr l => l.any isProductStr
      | t => isProductStr t
    if isProduct then
      let name := decodeJ dh (jsOrV (jget obj "name") (jstr ""))
      let sku := decodeJ dh (jsOrV (jget obj "sku") (jstr ""))
      let offers := jget obj "offers"
      let offerArr := match offers with | jarr l => l | v => [v]
      let price :=
        if truthy offers then
          match offerArr with
          | [] => ""
          | o :: _ => offerPrice o
        else ""
      let availability :=
        if truthy offers then
          match offerArr with
          | [] => splitPopSlash (jsStringOf (jstr ""))
          | o :: _ => offerAvailability o
        else splitPopSlash (jsStringOf (jstr ""))
      some { name := name, sku := sku, price := price, availability := availability }
    else none

/-- Strategy 1 (scrape.mjs lines 218-230): try each parsed JSON-LD block in
order; a parse failure (`none`) is swallowed; stop at the first block from
which `pickProduct` extracts a record. -/
def stage1 (dh : String → String) (snap : PageSnapshot) : Option ProductRecord :=
  snap.jsonLd.findSome? fun os => os.bind (pickProduct dh)

/-! ### Strategy 2: Shopify metadata (scrape.mjs lines 232-255) -/

/-- Model of `(v.price / 100).toFixed(2)` for a minor-unit integer price.
For integers in the attainable price range the float division and decimal
rounding are exact, so the result is the exact two-decimal rendering. -/
def centsToFixed2 (p : Nat) : String :=
  toString (p / 100) ++ "." ++ (if p % 100 < 10 then "0" else "") ++ toString (p % 100)

/-- Model of `v.price ? (v.price / 100).toFixed(2) : ''` (scrape.mjs 245):
a missing price, and also a zero price (falsy), give the empty string. -/
def shopifyVariantPrice : Option Nat → String
  | none => ""
  | some p => if p = 0 then "" else centsToFixed2 p

/-- The candidate name of scrape.mjs line 241:
`sp.type && sp.type.includes('Case') ? (v.name || sp.handle) : (v.name || document.title)`. -/
def shopifyName (sp : ShopifyProduct) (v : ShopifyVariant) (title : String) : String :=
  if sp.ptype ≠ "" && strContains "Case" sp.ptype then
    (if v.vname ≠ "" then v.vname else sp.handle)
  else
    (if v.vname ≠ "" then v.vname else title)

/-- Strategy 2 (scrape.mjs lines 232-255): only when there is no record yet
or its SKU is empty, and the Shopify metadata object is present with at
least one variant. A missing record is created whole; an existing record
only has its empty SKU and empty price filled. -/
def stage2 (dh : String → String) (snap : PageSnapshot)
    (ex : Option ProductRecord) : Option ProductRecord :=
  let skuMissing := match ex with | none => true | some r => r.sku = ""
  if skuMissing then
    match snap.shopifyMeta with
    | some sp =>
      match sp.variants with
      | [] => ex
      | v :: _ =>
        let name := shopifyName sp v snap.title
        let exName := match ex with | some r => r.name | none => ""
        let finalName := decodeS dh (if exName ≠ "" then exName else name)
        let sku := decodeS dh v.vsku
        let price := shopifyVariantPrice v.vprice
        match ex with
        | none =>
          some { name := finalName, sku := sku, price := price, availability := "" }
        | some r =>
          some { r with
                 sku := if r.sku = "" then sku else r.sku,
                 price := if r.price = "" then price else r.price }
    | none => ex
  else ex

/-! ### Strategy 3: DOM fallbacks (scrape.mjs lines 262-342) -/

/-- First decimal-number substring: model of `raw.match(/(\d+(?:\.\d+)?)/)`'s
first capture group. -/
def firstNumber : List Char → Option (List Char)
  | [] => none
  | c :: t =>
    if c.isDigit then
      let ds := (c :: t).takeWhile Char.isDigit
      let rest := (c :: t).dropWhile Char.isDigit
      match rest with
      | '.' :: r =>
        if (r.takeWhile Char.isDigit).isEmpty then some ds
        else some (ds ++ '.' :: r.takeWhile Char.isDigit)
      | _ => some ds
    else firstNumber t

/-- Case-insensitive (`ci = true`) or exact prefix test for a literal. -/
def litPrefix (ci : Bool) (needle : List Char) (hay : List Char) : Bool :=
  if ci then (needle.map Char.toLower).isPrefixOf (hay.map Char.toLower)
  else needle.isPrefixOf hay

/-- The capture of `LABEL\s*([^\n]+)` tried at one position, just after the
label: greedy `\s*` backtracks until `[^\n]+` can start, so the capture
starts at the last whitespace-run position whose character is not a newline
(usually the first non-whitespace character), and extends to the newline. -/
def captureAfterLabel (rest : List Char) : Option (List Char) :=
  let rec down (rest : List Char) : Nat → Option (List Char)
    | 0 =>
      match rest with
      | c :: _ => if c ≠ '\n' then some (rest.takeWhile (fun x => x ≠ '\n')) else none
      | [] => none
    | j + 1 =>
      match (rest.drop (j + 1)).head? with
      | some c =>
        if c ≠ '\n' then some ((rest.drop (j + 1)).takeWhile (fun x => x ≠ '\n'))
        else down rest j
      | none => down rest j
  down rest (rest.takeWhile isJsWs).length

/-- Model of `body.match(/LABEL\s*([^\n]+)/)` (with `i` flag when `ci`):
scan left to right for a position where the label matches and a capture
exists; return the capture. -/
def findLabelCapture (ci : Bool) (label : List Char) : List Char → Option (List Char)
  | [] => none
  | c :: t =>
    if litPrefix ci label (c :: t) then
      match captureAfterLabel ((c :: t).drop label.length) with
      | some cap => some cap
      | none => findLabelCapture ci label t
    else findLabelCapture ci label t

/-- Model of `bodyText.match(/Only \d+ units left/i)` as a Bool. -/
def hasOnlyUnitsLeft : List Char → Bool
  | [] => false
  | c :: t =>
    (litPrefix true "Only ".data (c :: t) &&
      (let rest := (c :: t).drop 5
       let ds := rest.takeWhile Char.isDigit
       !ds.isEmpty && litPrefix true " units left".data (rest.drop ds.length)))
    || hasOnlyUnitsLeft t

/-- DOM name fallback (scrape.mjs 263-265): first `h1` text, trimmed. -/
def domName (snap : PageSnapshot) : String := jsTrim (elText snap.h1)

/-- DOM price fallback (scrape.mjs 267-285): price meta tag content, else
itemprop content/text, else first decimal substring of the text of a price
element (raw text if no number). -/
def domPrice (snap : PageSnapshot) : String :=
  let v1 := elContent snap.priceMeta
  let v2 :=
    match snap.itempropPrice with
    | some e =>
      let c := e.contentAttr.getD ""
      if c ≠ "" then c else jsTrim e.text
    | none => ""
  let price0 := if v1 ≠ "" then v1 else v2
  if price0 ≠ "" then price0
  else
    let priceEl := firstElem [snap.itempropPrice, snap.priceClass, snap.productPriceClass]
    let raw := jsTrim (elText priceEl)
    if raw = "" then raw
    else
      match firstNumber raw.data with
      | some m => m.asString
      | none => raw

/-- Normalization of a non-empty detected availability text
(scrape.mjs 310-318): the in-stock test runs first. -/
def normalizeAvailText (text : String) : String :=
  if strContains "in stock" (jsLower text) || strContains "units left" text then "InStock"
  else if strContains "out of stock" (jsLower text) || strContains "sold out" (jsLower text) then
    "OutOfStock"
  else text

/-- The detected availability text (scrape.mjs 288-307): a stock element's
trimmed text, else a `Stock:`/`Availability:` labeled body line, else
`InStock` from an `Only N units left` phrase. -/
def domAvailText (snap : PageSnapshot) : String :=
  let availEl := firstElem
    [snap.dataStock, snap.availabilityClass, snap.stockStatus, snap.formInventory]
  let t0 := jsTrim (elText availEl)
  let t1 :=
    if t0 ≠ "" then t0
    else
      match findLabelCapture true "Stock:".data snap.bodyText.data with
      | some cap => jsTrim cap.asString
      | none =>
        match findLabelCapture true "Availability:".data snap.bodyText.data with
        | some cap => jsTrim cap.asString
        | none => ""
  if t1 = "" && hasOnlyUnitsLeft snap.bodyText.data then "InStock" else t1

/-- DOM availability fallback (scrape.mjs 287-324): detect a text, normalize
it when non-empty, then reduce a path-like value to its final segment. -/
def domAvailability (snap : PageSnapshot) : String :=
  let text := domAvailText snap
  let a := if text ≠ "" then normalizeAvailText text else ""
  splitPopSlash a

/-- DOM SKU fallback (scrape.mjs 326-342): a SKU element's trimmed text,
else a case-sensitive `SKU:` labeled body line. -/
def domSku (snap : PageSnapshot) : String :=
  let skuEl := firstElem
    [snap.skuClass, snap.itempropSku, snap.productSku, snap.variantSku]
  let s0 := jsTrim (elText skuEl)
  if s0 ≠ "" then s0
  else
    match findLabelCapture false "SKU:".data snap.bodyText.data with
    | some cap => jsTrim cap.asString
    | none => ""

/-- Strategy 3 (scrape.mjs 262-342): each DOM fallback fills its field only
when the field is still empty; the four blocks neither read nor write each
other's fields, so they are modelled as independent per-field updates. -/
def stage3 (snap : PageSnapshot) (r : ProductRecord) : ProductRecord :=
  { name := if r.name = "" then domName snap else r.name,
    sku := if r.sku = "" then domSku snap else r.sku,
    price := if r.price = "" then domPrice snap else r.price,
    availability := if r.availability = "" then domAvailability snap else r.availability }

/-- Final override (scrape.mjs 344-348): a name containing `[discontinued]`
(case-insensitively) forces availability `Discontinued`. -/
def finalOverride (r : ProductRecord) : ProductRecord :=
  if r.name ≠ "" && strContains "[discontinued]" (jsLower r.name) then
    { r with availability := "Discontinued" }
  else r

/-- The empty record installed when every strategy before the DOM fallbacks
produced nothing (scrape.mjs 258-260). -/
def emptyRecord : ProductRecord :=
  { name := "", sku := "", price := "", availability := "" }

/-- The whole extractor body run inside `p.evaluate` (scrape.mjs 172-351). -/
def extract (dh : String → String) (snap : PageSnapshot) : ProductRecord :=
  finalOverride (stage3 snap ((stage2 dh snap (stage1 dh snap)).getD emptyRecord))

/-! ### Sitemap discovery (scrape.mjs lines 110-142) -/

/-- The literal `<loc>`. -/
def openLoc : List Char := ['<', 'l', 'o', 'c', '>']

/-- The literal `</loc>`. -/
def closeLoc : List Char := ['<', '/', 'l', 'o', 'c', '>']

/-- Model of the loop `while ((m = re.exec(xml))) locs.push(m[1])` with
`re = /<loc>([^<]+)<\/loc>/g`: at each position, the regex matches when
`<loc>` is followed by at least one non-`<` character and then `</loc>`;
on a match the scan resumes after the whole match, otherwise it advances
one character. -/
def scanLocs : List Char → List (List Char)
  | [] => []
  | c :: cs =>
    if openLoc.isPrefixOf (c :: cs)
        && !(((c :: cs).drop 5).takeWhile (fun x => x != '<')).isEmpty
        && closeLoc.isPrefixOf (((c :: cs).drop 5).dropWhile (fun x => x != '<')) then
      ((c :: cs).drop 5).takeWhile (fun x => x != '<')
        :: scanLocs ((((c :: cs).drop 5).dropWhile (fun x => x != '<')).drop 6)
    else scanLocs cs
termination_by l => l.length
decreasing_by
  · have hdw : ∀ (f : Char → Bool) (l : List Char), (l.dropWhile f).length ≤ l.length := by
      intro f l
      induction l with
      | nil => exact Nat.le_refl _
      | cons a t ih =>
        simp only [List.dropWhile]
        split
        · exact Nat.le_succ_of_le ih
        · exact Nat.le_refl _
    have h1 := hdw (fun x => x != '<') ((c :: t).drop 5)
    simp only [List.length_drop, List.length_cons] at *
    omega
  · simp only [List.length_cons]
    omega

/-- The extracted `<loc>` texts of an XML document, as strings. -/
def extractLocs (xml : String) : List String := (scanLocs xml.data).map List.asString

/-- Modelled from the spec: the ordered sequence of `<loc>` element text
contents of the document ("every `<loc>…</loc>` text content, in document
order"), which unlike `scanLocs` also records an empty text. Used only to
compare the implementation against the specified sequence. -/
def specLocSeq : List Char → List (List Char)
  | [] => []
  | c :: cs =>
    if openLoc.isPrefixOf (c :: cs)
        && closeLoc.isPrefixOf (((c :: cs).drop 5).dropWhile (fun x => x != '<')) then
      ((c :: cs).drop 5).takeWhile (fun x => x != '<')
        :: specLocSeq ((((c :: cs).drop 5).dropWhile (fun x => x != '<')).drop 6)
    else specLocSeq cs
termination_by l => l.length
decreasing_by
  · have hdw : ∀ (f : Char → Bool) (l : List Char), (l.dropWhile f).length ≤ l.length := by
      intro f l
      induction l with
      | nil => exact Nat.le_refl _
      | cons a t ih =>
        simp only [List.dropWhile]
        split
        · exact Nat.le_succ_of_le ih
        · exact Nat.le_refl _
    have h1 := hdw (fun x => x != '<') ((c :: t).drop 5)
    simp only [List.length_drop, List.length_cons] at *
    omega
  · simp only [List.length_cons]
    omega

/-- A `<loc>` element with the given text content. -/
def locElem (t : List Char) : List Char := openLoc ++ t ++ closeLoc

/-- A sitemap document that is just a sequence of `<loc>` elements. -/
def buildXml (ts : List (List Char)) : List Char := (ts.map locElem).flatten

/-- Model of `productUrlsSet.add` (JS `Set.prototype.add`): appends a value
not yet present, keeps insertion order otherwise. -/
def insertSet (l : List String) (u : String) : List String :=
  if u ∈ l then l else l ++ [u]

/-- Model of inserting a stream of values into a fresh JS `Set` and taking
`Array.from` of it: first occurrences, in first-seen order. -/
def setFromList (l : List String) : List String := l.foldl insertSet []

/-- First-occurrence sublist, by direct recursion: keeps the head and drops
its later duplicates. Proved equal to `setFromList` below. -/
def firstSeen : List String → List String
  | [] => []
  | a :: t => a :: firstSeen (t.filter (fun x => x ≠ a))
termination_by l => l.length
decreasing_by
  simp only [List.length_cons]
  exact Nat.lt_succ_of_le (List.length_filter_le _ _)

/-- All product URLs collected across the candidate sub-sitemaps, in
document order (scrape.mjs 125-139): each sub-sitemap's `<loc>` texts
filtered to those containing `/products/`. -/
def collectedUrls (subXmls : List String) : List String :=
  (subXmls.map fun x => (extractLocs x).filter fun u => strContains "/products/" u).flatten

/-- The final discovered URL list (scrape.mjs 122-142): Set-based dedup in
first-seen order, then `filter(u => u && u.trim() !== '')`. -/
def discoveredUrls (subXmls : List String) : List String :=
  (setFromList (collectedUrls subXmls)).filter fun u => u ≠ "" && jsTrim u ≠ ""

/-! ### Batch crawl orchestration and CSV sink (scrape.mjs lines 145-375) -/

/-- `const BATCH_SIZE = 10`. -/
def BATCH_SIZE : Nat := 10

/-- The effective scrape limit (scrape.mjs 145):
`maxProducts > 0 ? Math.min(maxProducts, productUrls.length) : productUrls.length`. -/
def effLimit (maxProducts : Int) (count : Nat) : Nat :=
  if maxProducts > 0 then min maxProducts.toNat count else count

/-- `Array.prototype.slice(i, j)` on lists (for `0 ≤ i ≤ j`). -/
def jsSlice (l : List α) (i j : Nat) : List α := (l.take j).drop i

/-- One URL's fetch-and-extract attempt (scrape.mjs 162-358), abstracted
over its outcome: `outcome u = none` models a navigation/evaluation error
(caught locally, yielding `null`); empty URLs are skipped up front. -/
def scrapeOne (outcome : String → Option ProductRecord) (u : String) :
    Option ProductRecord :=
  if u = "" || jsTrim u = "" then none else outcome u

/-- The batches produced by `for (let i = 0; i < limit; i += BATCH_SIZE)`
(scrape.mjs 158-159): each is `productUrls.slice(i, Math.min(i + BATCH_SIZE, limit))`. -/
def crawlBatches (urls : List String) (limit : Nat) (i : Nat) : List (List String) :=
  if i < limit then
    jsSlice urls i (min (i + BATCH_SIZE) limit) :: crawlBatches urls limit (i + BATCH_SIZE)
  else []
termination_by limit - i
decreasing_by simp only [BATCH_SIZE]; omega

/-- The URLs attempted over the whole run: all batches, in order. -/
def attemptedUrls (urls : List String) (limit : Nat) : List String :=
  (crawlBatches urls limit 0).flatten

/-- `validResults` of one batch (scrape.mjs 361-362): the per-URL results
with the `null`s of failed scrapes filtered out. -/
def batchRecords (outcome : String → Option ProductRecord) (b : List String) :
    List ProductRecord :=
  (b.map (scrapeOne outcome)).filterMap id

/-- All records produced by the run, in batch order. -/
def runRecords (outcome : String → Option ProductRecord) (urls : List String)
    (limit : Nat) : List ProductRecord :=
  ((crawlBatches urls limit 0).map (batchRecords outcome)).flatten

/-- Model of `String(v || '').replace(/"/g, '""')` on char lists. -/
def escQuotes : List Char → List Char
  | [] => []
  | c :: t => if c = '"' then '"' :: '"' :: escQuotes t else c :: escQuotes t

/-- Collapse doubled quotes: the inverse reading of CSV quote escaping. -/
def unescQuotes : List Char → List Char
  | [] => []
  | [c] => [c]
  | c :: d :: t =>
    if c = '"' ∧ d = '"' then '"' :: unescQuotes t else c :: unescQuotes (d :: t)

/-- The field escape `esc` of scrape.mjs line 366, on strings. -/
def jsEsc (s : String) : String := (escQuotes s.data).asString

/-- One CSV line (scrape.mjs 367): each field quoted with embedded quotes
doubled, fields joined by commas. -/
def csvLine (r : ProductRecord) : String :=
  "\"" ++ jsEsc r.name ++ "\",\"" ++ jsEsc r.sku ++ "\",\"" ++ jsEsc r.price
    ++ "\",\"" ++ jsEsc r.availability ++ "\""

/-- Model of `Array.prototype.join(sep)` for an array of strings. -/
def jsJoin (sep : String) : List String → String
  | [] => ""
  | [a] => a
  | a :: b :: t => a ++ sep ++ jsJoin sep (b :: t)

/-- The string a batch appends to the file (scrape.mjs 371-373): nothing at
all when no line survived, else the lines joined by newline plus a trailing
newline. -/
def blockString (lines : List String) : String :=
  if lines.length > 0 then jsJoin "\n" lines ++ "\n" else ""

/-- The CSV header written once when the file is created (scrape.mjs 152-153). -/
def csvHeader : String := "name,sku,price,availability\n"

/-- Concatenation of a list of strings, in order. -/
def strConcat : List String → String
  | [] => ""
  | s :: t => s ++ strConcat t

/-- The full contents of the output file after the run: the header written
at creation followed by every batch's appended block, in order. -/
def fileContent (outcome : String → Option ProductRecord) (urls : List String)
    (limit : Nat) : String :=
  csvHeader ++ strConcat
    ((crawlBatches urls limit 0).map fun b =>
      blockString ((batchRecords outcome b).map csvLine))

/-! ### Concrete fixtures used by witnesses and counterexamples -/

/-- A page with nothing on it. -/
def blankSnap : PageSnapshot :=
  { jsonLd := [], shopifyMeta := none, title := "", h1 := none,
    priceMeta := none, itempropPrice := none, priceClass := none,
    productPriceClass := none, dataStock := none, availabilityClass := none,
    stockStatus := none, formInventory := none, skuClass := none,
    itempropSku := none, productSku := none, variantSku := none, bodyText := "" }

/-- A page whose availability element text carries both an out-of-stock and
an in-stock marker. -/
def snapBothMarkers : PageSnapshot :=
  { blankSnap with
    availabilityClass := some { text := "Sold out - only 2 units left", contentAttr := none } }

/-- A page whose JSON-LD Product block has an empty name and no SKU, while
the Shopify metadata offers a variant name, and an `h1` is present. -/
def snapEmptyLdName : PageSnapshot :=
  { blankSnap with
    jsonLd := [some (JVal.jobj [("@type", JVal.jstr "Product")])],
    shopifyMeta := some
      { ptype := "", handle := "hdl",
        variants := [{ vname := "Variant Name", vsku := "SKU1", vprice := some 1999 }] },
    title := "Doc Title",
    h1 := some { text := "H1 Name", contentAttr := none } }

/-- A page with only Shopify metadata: no JSON-LD, no DOM signals. -/
def snapShopifyOnly : PageSnapshot :=
  { blankSnap with
    shopifyMeta := some
      { ptype := "", handle := "hdl",
        variants := [{ vname := "Variant Name", vsku := "SKU1", vprice := some 1999 }] },
    title := "Doc Title" }

/-- A page with a full JSON-LD Product block (schema-URI availability, a
discontinued marker in the name) plus DOM price/availability candidates
that must not win. -/
def snapFullLd : PageSnapshot :=
  { blankSnap with
    jsonLd := [some (JVal.jobj
      [("@type", JVal.jstr "Product"),
       ("name", JVal.jstr "Widget [Discontinued]"),
       ("sku", JVal.jstr "W1"),
       ("offers", JVal.jobj
         [("price", JVal.jstr "9.99"),
          ("availability", JVal.jstr "https://schema.org/InStock")])])],
    priceMeta := some { text := "", contentAttr := some "1.23" },
    h1 := some { text := "Other Name", contentAttr := none },
    bodyText := "Stock: In Stock\nSKU: ZZZ" }

/-! ## Helper lemmas -/

theorem pairwise_imp_of_mem {α : Type} {R S : α → α → Prop} {l : List α}
    (h : ∀ a ∈ l, ∀ b ∈ l, R a b → S a b) (hp : l.Pairwise R) : l.Pairwise S := by
  induction hp with
  | nil => exact List.Pairwise.nil
  | cons hr _ ih =>
    refine List.Pairwise.cons ?_ (ih ?_)
    · intro b hb
      exact h _ (List.mem_cons_self _ _) b (List.mem_cons_of_mem _ hb) (hr b hb)
    · intro a ha b hb hr2
      exact h a (List.mem_cons_of_mem _ ha) b (List.mem_cons_of_mem _ hb) hr2

theorem takeWhile_append_stop (t rest : List Char) (h : '<' ∉ t) :
    (t ++ '<' :: rest).takeWhile (fun x => x != '<') = t := by
  induction t with
  | nil => simp
  | cons a t ih =>
    have ha : a ≠ '<' := fun e => h (e ▸ List.mem_cons_self a t)
    have h' : '<' ∉ t := fun hm => h (List.mem_cons_of_mem _ hm)
    simp [List.takeWhile_cons, ha, ih h']

theorem dropWhile_append_stop (t rest : List Char) (h : '<' ∉ t) :
    (t ++ '<' :: rest).dropWhile (fun x => x != '<') = '<' :: rest := by
  induction t with
  | nil => simp
  | cons a t ih =>
    have ha : a ≠ '<' := fun e => h (e ▸ List.mem_cons_self a t)
    have h' : '<' ∉ t := fun hm => h (List.mem_cons_of_mem _ hm)
    simp [List.dropWhile_cons, ha, ih h']

/-! ## Sitemap scan lemmas (C5) -/

theorem scanLocs_nil : scanLocs [] = [] := by rw [scanLocs]

theorem scanLocs_cons_ne (c : Char) (cs : List Char) (h : c ≠ '<') :
    scanLocs (c :: cs) = scanLocs cs := by
  rw [scanLocs]
  have hb : ('<' == c) = false := by simp [Ne.symm h]
  simp [openLoc, List.isPrefixOf, hb]

theorem scanLocs_lt2 (d : Char) (cs : List Char) (h : d ≠ 'l') :
    scanLocs ('<' :: d :: cs) = scanLocs (d :: cs) := by
  rw [scanLocs]
  have hb : ('l' == d) = false := by simp [Ne.symm h]
  simp [openLoc, List.isPrefixOf, hb]

theorem scanLocs_open (X : List Char) :
    scanLocs (openLoc ++ X) =
      if (!(X.takeWhile (fun x => x != '<')).isEmpty
          && closeLoc.isPrefixOf (X.dropWhile (fun x => x != '<'))) = true
      then (X.takeWhile (fun x => x != '<'))
        :: scanLocs ((X.dropWhile (fun x => x != '<')).drop 6)
      else scanLocs ('l' :: 'o' :: 'c' :: '>' :: X) := by
  rw [show openLoc ++ X = '<' :: 'l' :: 'o' :: 'c' :: '>' :: X from rfl, scanLocs]
  rw [show List.drop 5 ('<' :: 'l' :: 'o' :: 'c' :: '>' :: X) = X from rfl]
  rw [show openLoc.isPrefixOf ('<' :: 'l' :: 'o' :: 'c' :: '>' :: X) = true from by
    simp [openLoc, List.isPrefixOf]]
  rw [Bool.true_and]

theorem scanLocs_empty_elem (B : List Char) :
    scanLocs (locElem [] ++ B) = scanLocs B := by
  have h0 : locElem [] ++ B = openLoc ++ ('<' :: '/' :: 'l' :: 'o' :: 'c' :: '>' :: B) := rfl
  rw [h0, scanLocs_open]
  have hc : (!((('<' :: '/' :: 'l' :: 'o' :: 'c' :: '>' :: B).takeWhile
      (fun x => x != '<'))).isEmpty) = false := by simp [List.takeWhile_cons]
  rw [hc]
  simp only [Bool.false_and, Bool.false_eq_true, if_false]
  rw [scanLocs_cons_ne _ _ (by decide), scanLocs_cons_ne _ _ (by decide),
    scanLocs_cons_ne _ _ (by decide), scanLocs_cons_ne _ _ (by decide),
    scanLocs_lt2 _ _ (by decide), scanLocs_cons_ne _ _ (by decide),
    scanLocs_cons_ne _ _ (by decide), scanLocs_cons_ne _ _ (by decide),
    scanLocs_cons_ne _ _ (by decide), scanLocs_cons_ne _ _ (by decide)]

theorem scanLocs_elem (t B : List Char) (hne : t ≠ []) (h : '<' ∉ t) :
    scanLocs (locElem t ++ B) = t :: scanLocs B := by
  have h0 : locElem t ++ B = openLoc ++ (t ++ '<' :: '/' :: 'l' :: 'o' :: 'c' :: '>' :: B) := by
    simp [locElem, openLoc, closeLoc]
  rw [h0, scanLocs_open, takeWhile_append_stop _ _ h, dropWhile_append_stop _ _ h]
  have hcl : closeLoc.isPrefixOf ('<' :: '/' :: 'l' :: 'o' :: 'c' :: '>' :: B) = true := by
    simp [closeLoc, List.isPrefixOf]
  have hemp : t.isEmpty = false := by
    cases t with
    | nil => exact absurd rfl hne
    | cons a t => rfl
  rw [hcl, hemp]
  simp

theorem scanLocs_buildXml (ts : List (List Char)) (h : ∀ t ∈ ts, '<' ∉ t) :
    scanLocs (buildXml ts) = ts.filter (fun t => t ≠ []) := by
  induction ts with
  | nil => exact scanLocs_nil
  | cons t ts ih =>
    have ht : '<' ∉ t := h t (List.mem_cons_self _ _)
    have h' : ∀ u ∈ ts, '<' ∉ u := fun u hu => h u (List.mem_cons_of_mem _ hu)
    have hb : buildXml (t :: ts) = locElem t ++ buildXml ts := by
      simp [buildXml]
    by_cases he : t = []
    · subst he
      rw [hb, scanLocs_empty_elem, ih h']
      simp
    · rw [hb, scanLocs_elem t _ he ht, ih h']
      simp [he]

theorem specLocSeq_nil : specLocSeq [] = [] := by rw [specLocSeq]

theorem specLocSeq_cons_ne (c : Char) (cs : List Char) (h : c ≠ '<') :
    specLocSeq (c :: cs) = specLocSeq cs := by
  rw [specLocSeq]
  have hb : ('<' == c) = false := by simp [Ne.symm h]
  simp [openLoc, List.isPrefixOf, hb]

theorem specLocSeq_elem (t B : List Char) (h : '<' ∉ t) :
    specLocSeq (locElem t ++ B) = t :: specLocSeq B := by
  have h0 : locElem t ++ B = '<' :: 'l' :: 'o' :: 'c' :: '>'
      :: (t ++ '<' :: '/' :: 'l' :: 'o' :: 'c' :: '>' :: B) := by
    simp [locElem, openLoc, closeLoc]
  rw [h0, specLocSeq]
  have hdrop : ('<' :: 'l' :: 'o' :: 'c' :: '>'
      :: (t ++ '<' :: '/' :: 'l' :: 'o' :: 'c' :: '>' :: B)).drop 5
      = t ++ '<' :: '/' :: 'l' :: 'o' :: 'c' :: '>' :: B := rfl
  rw [hdrop, dropWhile_append_stop _ _ h, takeWhile_append_stop _ _ h]
  have hop : openLoc.isPrefixOf ('<' :: 'l' :: 'o' :: 'c' :: '>'
      :: (t ++ '<' :: '/' :: 'l' :: 'o' :: 'c' :: '>' :: B)) = true := by
    simp [openLoc, List.isPrefixOf]
  have hcl : closeLoc.isPrefixOf ('<' :: '/' :: 'l' :: 'o' :: 'c' :: '>' :: B) = true := by
    simp [closeLoc, List.isPrefixOf]
  rw [hop, hcl]
  simp

theorem specLocSeq_lt2 (d : Char) (cs : List Char) (h : d ≠ 'l') :
    specLocSeq ('<' :: d :: cs) = specLocSeq (d :: cs) := by
  rw [specLocSeq]
  have hb : ('l' == d) = false := by simp [Ne.symm h]
  simp [openLoc, List.isPrefixOf, hb]

theorem specLocSeq_close_junk (v : List Char) :
    specLocSeq ('l' :: 'o' :: 'c' :: '>' :: '<' :: '/' :: 'l' :: 'o' :: 'c' :: '>' :: v)
      = specLocSeq v := by
  rw [specLocSeq_cons_ne _ _ (by decide), specLocSeq_cons_ne _ _ (by decide),
    specLocSeq_cons_ne _ _ (by decide), specLocSeq_cons_ne _ _ (by decide),
    specLocSeq_lt2 _ _ (by decide), specLocSeq_cons_ne _ _ (by decide),
    specLocSeq_cons_ne _ _ (by decide), specLocSeq_cons_ne _ _ (by decide),
    specLocSeq_cons_ne _ _ (by decide), specLocSeq_cons_ne _ _ (by decide)]

theorem dropWhile_eq_self_of_takeWhile_nil (p : Char → Bool) (l : List Char)
    (h : l.takeWhile p = []) : l.dropWhile p = l := by
  cases l with
  | nil => rfl
  | cons a b =>
    by_cases hp : p a
    · rw [List.takeWhile_cons, if_pos hp] at h
      exact absurd h (by simp)
    · rw [List.dropWhile_cons, if_neg hp]

theorem isPrefixOf_decomp (n l : List Char) (h : n.isPrefixOf l = true) :
    ∃ v, l = n ++ v := by
  obtain ⟨v, hv⟩ := List.isPrefixOf_iff_prefix.mp h
  exact ⟨v, hv.symm⟩

/-- The regex scan and the specified `<loc>` text sequence agree up to the
empty texts: the scan's extra `[^<]+` non-emptiness requirement drops
exactly the empty-text elements, at every position of every document. -/
theorem scanLocs_eq_specLocSeq (l : List Char) :
    scanLocs l = (specLocSeq l).filter (fun t => t ≠ []) := by
  refine scanLocs.induct
    (fun l => scanLocs l = (specLocSeq l).filter (fun t => t ≠ [])) ?_ ?_ ?_ l
  · show scanLocs [] = (specLocSeq []).filter (fun t => t ≠ [])
    rw [scanLocs_nil, specLocSeq_nil]
    rfl
  · intro c t hcond ih
    show scanLocs (c :: t) = (specLocSeq (c :: t)).filter (fun t => t ≠ [])
    have hparts := hcond
    rw [Bool.and_eq_true, Bool.and_eq_true, Bool.not_eq_true'] at hparts
    obtain ⟨⟨hopen, hemp⟩, hclose⟩ := hparts
    have hne : ((c :: t).drop 5).takeWhile (fun x => x != '<') ≠ [] := by
      intro e
      rw [e] at hemp
      simp at hemp
    have hspec : specLocSeq (c :: t)
        = ((c :: t).drop 5).takeWhile (fun x => x != '<')
          :: specLocSeq ((((c :: t).drop 5).dropWhile (fun x => x != '<')).drop 6) := by
      rw [specLocSeq, if_pos (by rw [hopen, hclose]; rfl)]
    rw [scanLocs, if_pos hcond, hspec, ih, List.filter_cons]
    split
    · rfl
    · rename_i hfalse
      exact absurd (decide_eq_true hne) hfalse
  · intro c t hcond ih
    show scanLocs (c :: t) = (specLocSeq (c :: t)).filter (fun t => t ≠ [])
    rw [scanLocs, if_neg hcond, ih]
    by_cases hspec : (openLoc.isPrefixOf (c :: t)
        && closeLoc.isPrefixOf (((c :: t).drop 5).dropWhile (fun x => x != '<'))) = true
    · have hparts := hspec
      rw [Bool.and_eq_true] at hparts
      obtain ⟨hopen, hclose⟩ := hparts
      have hemp : ((c :: t).drop 5).takeWhile (fun x => x != '<') = [] := by
        by_contra hne
        apply hcond
        have hie : (((c :: t).drop 5).takeWhile (fun x => x != '<')).isEmpty = false := by
          cases he : ((c :: t).drop 5).takeWhile (fun x => x != '<') with
          | nil => exact absurd he hne
          | cons a b => rfl
        rw [hopen, hie, hclose]
        rfl
      obtain ⟨u, hu⟩ := isPrefixOf_decomp openLoc (c :: t) hopen
      have hu' : c :: t = '<' :: 'l' :: 'o' :: 'c' :: '>' :: u := hu
      injection hu' with hc ht
      subst hc
      subst ht
      have hdrop : ('<' :: 'l' :: 'o' :: 'c' :: '>' :: u).drop 5 = u := rfl
      rw [hdrop] at hemp hclose
      have hdw : u.dropWhile (fun x => x != '<') = u :=
        dropWhile_eq_self_of_takeWhile_nil _ u hemp
      rw [hdw] at hclose
      obtain ⟨v, hv⟩ := isPrefixOf_decomp closeLoc u hclose
      subst hv
      have hspecEq : specLocSeq ('<' :: 'l' :: 'o' :: 'c' :: '>' :: (closeLoc ++ v))
          = [] :: specLocSeq v := by
        rw [specLocSeq, if_pos hspec, hdrop, hdw, hemp]
        rw [show ((closeLoc ++ v).drop 6) = v from rfl]
      rw [hspecEq, List.filter_cons_of_neg (by simp)]
      rw [show ('l' :: 'o' :: 'c' :: '>' :: (closeLoc ++ v) : List Char)
          = ('l' :: 'o' :: 'c' :: '>' :: '<' :: '/' :: 'l' :: 'o' :: 'c' :: '>' :: v) from rfl]
      rw [specLocSeq_close_junk]
    · rw [show specLocSeq (c :: t) = specLocSeq t from by rw [specLocSeq, if_neg hspec]]

/-! ## C5: the extracted location list -/

/-- C5. The claim says every `<loc>` element, including one with empty
text, contributes exactly one entry. It fails: the scan regex requires at
least one character of text (`[^<]+`), so the empty element of
`<loc></loc><loc>a</loc>` contributes nothing, while the specified
sequence of `<loc>` text contents is `["", "a"]`. -/
theorem claim_C5_counterexample :
    extractLocs "<loc></loc><loc>a</loc>" = ["a"] ∧
    (specLocSeq "<loc></loc><loc>a</loc>".data).map List.asString = ["", "a"] ∧
    (["a"] : List String) ≠ ["", "a"] := by
  refine ⟨?_, ?_, by decide⟩
  · show (scanLocs "<loc></loc><loc>a</loc>".data).map List.asString = ["a"]
    rw [show "<loc></loc><loc>a</loc>".data = locElem [] ++ (locElem ['a'] ++ []) from rfl]
    rw [scanLocs_empty_elem, scanLocs_elem ['a'] [] (by decide) (by decide), scanLocs_nil]
    rfl
  · rw [show "<loc></loc><loc>a</loc>".data = locElem [] ++ (locElem ['a'] ++ []) from rfl]
    rw [specLocSeq_elem [] _ (by decide), specLocSeq_elem ['a'] [] (by decide), specLocSeq_nil]
    rfl

/-- C5 (amended). For any sitemap XML document, the extracted location
list equals the ordered sequence of `<loc>` element text contents in
document order with the empty ones dropped: every `<loc>` element with
non-empty text contributes exactly one entry, in order, duplicates and
all; an empty `<loc></loc>` contributes nothing. -/
theorem claim_C5_amended (xml : String) :
    extractLocs xml
      = ((specLocSeq xml.data).filter (fun t => t ≠ [])).map List.asString := by
  show (scanLocs xml.data).map List.asString = _
  rw [scanLocs_eq_specLocSeq]

/-- C5 witness: a document with wrapper markup around the `<loc>` elements
and an empty element; only the non-empty text is extracted. -/
theorem claim_C5_witness :
    extractLocs "<urlset><loc>https://x/products/a</loc><loc></loc></urlset>"
      = ["https://x/products/a"] := by
  rw [claim_C5_amended]
  have hs : specLocSeq "<urlset><loc>https://x/products/a</loc><loc></loc></urlset>".data
      = ["https://x/products/a".data, []] := by
    show specLocSeq ('<' :: 'u' :: 'r' :: 'l' :: 's' :: 'e' :: 't' :: '>' ::
      (locElem "https://x/products/a".data ++ (locElem [] ++
        ('<' :: '/' :: 'u' :: 'r' :: 'l' :: 's' :: 'e' :: 't' :: '>' :: [])))) = _
    rw [specLocSeq_lt2 _ _ (by decide), specLocSeq_cons_ne _ _ (by decide),
      specLocSeq_cons_ne _ _ (by decide), specLocSeq_cons_ne _ _ (by decide),
      specLocSeq_cons_ne _ _ (by decide), specLocSeq_cons_ne _ _ (by decide),
      specLocSeq_cons_ne _ _ (by decide), specLocSeq_cons_ne _ _ (by decide),
      specLocSeq_elem _ _ (by decide), specLocSeq_elem _ _ (by decide),
      specLocSeq_lt2 _ _ (by decide), specLocSeq_cons_ne _ _ (by decide),
      specLocSeq_cons_ne _ _ (by decide), specLocSeq_cons_ne _ _ (by decide),
      specLocSeq_cons_ne _ _ (by decide), specLocSeq_cons_ne _ _ (by decide),
      specLocSeq_cons_ne _ _ (by decide), specLocSeq_cons_ne _ _ (by decide),
      specLocSeq_cons_ne _ _ (by decide), specLocSeq_nil]
  rw [hs]
  decide

/-! ## C6: dedup, first-seen order, no blank entries -/

theorem firstSeen_nil : firstSeen [] = [] := by rw [firstSeen]

theorem firstSeen_cons (a : String) (t : List String) :
    firstSeen (a :: t) = a :: firstSeen (t.filter (fun x => x ≠ a)) := by
  rw [firstSeen]

theorem foldl_insertSet (l : List String) :
    ∀ acc : List String,
      l.foldl insertSet acc = acc ++ firstSeen (l.filter (fun x => x ∉ acc)) := by
  induction l with
  | nil => intro acc; simp [firstSeen_nil]
  | cons x t ih =>
    intro acc
    by_cases hx : x ∈ acc
    · have h1 : insertSet acc x = acc := by simp [insertSet, hx]
      have h2 : (x :: t).filter (fun y => y ∉ acc) = t.filter (fun y => y ∉ acc) := by
        simp [List.filter_cons, hx]
      rw [List.foldl_cons, h1, ih acc, h2]
    · have h1 : insertSet acc x = acc ++ [x] := by simp [insertSet, hx]
      have h2 : (x :: t).filter (fun y => y ∉ acc) = x :: t.filter (fun y => y ∉ acc) := by
        simp [List.filter_cons, hx]
      rw [List.foldl_cons, h1, ih (acc ++ [x]), h2, firstSeen_cons]
      rw [List.append_assoc]
      have h3 : t.filter (fun y => y ∉ acc ++ [x])
          = (t.filter (fun y => y ∉ acc)).filter (fun y => y ≠ x) := by
        rw [List.filter_filter]
        apply List.filter_congr
        intro y _
        simp [List.mem_append, not_or, Bool.and_comm]
      rw [h3]
      rfl

theorem setFromList_eq_firstSeen (l : List String) : setFromList l = firstSeen l := by
  have h := foldl_insertSet l []
  simpa [setFromList] using h

theorem mem_firstSeen : ∀ l : List String, ∀ x, x ∈ firstSeen l ↔ x ∈ l := by
  intro l
  induction l using firstSeen.induct with
  | case1 => intro x; rw [firstSeen_nil]
  | case2 a t ih =>
    intro x
    rw [firstSeen_cons]
    by_cases hxa : x = a
    · subst hxa; simp
    · simp only [List.mem_cons, ih x, List.mem_filter, hxa, false_or]
      simp [hxa]

theorem firstSeen_nodup : ∀ l : List String, (firstSeen l).Nodup := by
  intro l
  induction l using firstSeen.induct with
  | case1 => rw [firstSeen_nil]; exact List.nodup_nil
  | case2 a t ih =>
    rw [firstSeen_cons]
    refine List.Nodup.cons ?_ ih
    intro hmem
    have := (mem_firstSeen _ a).1 hmem
    simp [List.mem_filter] at this

theorem firstSeen_sublist : ∀ l : List String, (firstSeen l).Sublist l := by
  intro l
  induction l using firstSeen.induct with
  | case1 => rw [firstSeen_nil]
  | case2 a t ih =>
    rw [firstSeen_cons]
    exact List.Sublist.cons₂ a (ih.trans (List.filter_sublist t))

theorem indexOf_filter_lt (p : String → Bool) :
    ∀ (l : List String) (x y : String), x ∈ l.filter p → y ∈ l.filter p →
      (l.filter p).indexOf x < (l.filter p).indexOf y → l.indexOf x < l.indexOf y := by
  intro l
  induction l with
  | nil => intro x y hx; simp at hx
  | cons h t ih =>
    intro x y hx hy hlt
    by_cases hp : p h
    · rw [List.filter_cons_of_pos hp] at hx hy hlt
      by_cases hxh : x = h
      · subst hxh
        have hyx : y ≠ x := by
          intro e
          subst e
          exact Nat.lt_irrefl _ hlt
        rw [List.indexOf_cons_self]
        rw [List.indexOf_cons_ne _ (Ne.symm hyx)]
        exact Nat.succ_pos _
      · by_cases hyh : y = h
        · subst hyh
          rw [List.indexOf_cons_self] at hlt
          exact absurd hlt (Nat.not_lt_zero _)
        · rw [List.indexOf_cons_ne _ (Ne.symm hxh), List.indexOf_cons_ne _ (Ne.symm hyh)] at hlt ⊢
          have hx' : x ∈ t.filter p := by
            rcases List.mem_cons.1 hx with e | m
            · exact absurd e hxh
            · exact m
          have hy' : y ∈ t.filter p := by
            rcases List.mem_cons.1 hy with e | m
            · exact absurd e hyh
            · exact m
          exact Nat.succ_lt_succ (ih x y hx' hy' (Nat.lt_of_succ_lt_succ hlt))
    · rw [List.filter_cons_of_neg hp] at hx hy hlt
      have hxh : x ≠ h := by
        intro e
        subst e
        exact hp (List.of_mem_filter hx)
      have hyh : y ≠ h := by
        intro e
        subst e
        exact hp (List.of_mem_filter hy)
      rw [List.indexOf_cons_ne _ (Ne.symm hxh), List.indexOf_cons_ne _ (Ne.symm hyh)]
      exact Nat.succ_lt_succ (ih x y hx hy hlt)

theorem firstSeen_pairwise_indexOf :
    ∀ l : List String, (firstSeen l).Pairwise (fun a b => l.indexOf a < l.indexOf b) := by
  intro l
  induction l using firstSeen.induct with
  | case1 => rw [firstSeen_nil]; exact List.Pairwise.nil
  | case2 a t ih =>
    rw [firstSeen_cons]
    refine List.Pairwise.cons ?_ ?_
    · intro b hb
      have hbf : b ∈ t.filter (fun x => x ≠ a) := (mem_firstSeen _ b).1 hb
      have hba : b ≠ a := by
        have := List.of_mem_filter hbf
        simpa using this
      rw [List.indexOf_cons_self, List.indexOf_cons_ne _ (Ne.symm hba)]
      exact Nat.succ_pos _
    · refine pairwise_imp_of_mem ?_ ih
      intro x hx y hy hlt
      have hxf : x ∈ t.filter (fun u => u ≠ a) := (mem_firstSeen _ x).1 hx
      have hyf : y ∈ t.filter (fun u => u ≠ a) := (mem_firstSeen _ y).1 hy
      have hxa : x ≠ a := by have := List.of_mem_filter hxf; simpa using this
      have hya : y ≠ a := by have := List.of_mem_filter hyf; simpa using this
      have ht := indexOf_filter_lt _ t x y hxf hyf hlt
      rw [List.indexOf_cons_ne _ (Ne.symm hxa), List.indexOf_cons_ne _ (Ne.symm hya)]
      exact Nat.succ_lt_succ ht

/-- C6. The discovered URL set has no duplicates even when the same URL
occurs in several sub-sitemaps; it is a subsequence of the collected URL
stream whose iteration order is the order of each URL's first occurrence
(indices strictly increase along the list); membership is exactly the
collected URLs that are neither empty nor whitespace-only. -/
theorem claim_C6_dedup (subXmls : List String) :
    (discoveredUrls subXmls).Nodup ∧
    (discoveredUrls subXmls).Sublist (collectedUrls subXmls) ∧
    (discoveredUrls subXmls).Pairwise
      (fun a b => (collectedUrls subXmls).indexOf a < (collectedUrls subXmls).indexOf b) ∧
    (∀ u, u ∈ discoveredUrls subXmls ↔
      (u ∈ collectedUrls subXmls ∧ u ≠ "" ∧ jsTrim u ≠ "")) := by
  have hset : setFromList (collectedUrls subXmls) = firstSeen (collectedUrls subXmls) :=
    setFromList_eq_firstSeen _
  refine ⟨?_, ?_, ?_, ?_⟩
  · exact List.Nodup.filter _ (hset ▸ firstSeen_nodup _)
  · have h1 : (discoveredUrls subXmls).Sublist (setFromList (collectedUrls subXmls)) := by
      exact List.filter_sublist _
    refine h1.trans ?_
    rw [hset]
    exact firstSeen_sublist _
  · have hp : (setFromList (collectedUrls subXmls)).Pairwise
        (fun a b => (collectedUrls subXmls).indexOf a < (collectedUrls subXmls).indexOf b) := by
      rw [hset]
      exact firstSeen_pairwise_indexOf _
    exact List.Pairwise.sublist (List.filter_sublist _) hp
  · intro u
    unfold discoveredUrls
    rw [hset]
    simp only [List.mem_filter, mem_firstSeen]
    constructor
    · rintro ⟨hm, hb⟩
      refine ⟨hm, ?_, ?_⟩
      · intro e; subst e; simp at hb
      · intro e; rw [e] at hb; simp at hb
    · rintro ⟨hm, h1, h2⟩
      refine ⟨hm, ?_⟩
      simp [h1, h2]

/-- C6 witness: two sub-sitemaps sharing a URL; the first-seen order and
dedup are visible on a concrete discovery. -/
theorem claim_C6_witness :
    (discoveredUrls ["<loc>https://x/products/a</loc><loc>https://x/products/b</loc>",
      "<loc>https://x/products/a</loc><loc>https://x/products/c</loc>"]).Nodup ∧
    ("https://x/products/b" ∈ discoveredUrls
      ["<loc>https://x/products/a</loc><loc>https://x/products/b</loc>",
       "<loc>https://x/products/a</loc><loc>https://x/products/c</loc>"]) := by
  have h2 : extractLocs "<loc>https://x/products/a</loc><loc>https://x/products/b</loc>"
      = ["https://x/products/a", "https://x/products/b"] := by
    show (scanLocs "<loc>https://x/products/a</loc><loc>https://x/products/b</loc>".data).map
      List.asString = _
    rw [show "<loc>https://x/products/a</loc><loc>https://x/products/b</loc>".data
        = buildXml ["https://x/products/a".data, "https://x/products/b".data] from rfl,
      scanLocs_buildXml _ (by decide)]
    decide
  have h3 : extractLocs "<loc>https://x/products/a</loc><loc>https://x/products/c</loc>"
      = ["https://x/products/a", "https://x/products/c"] := by
    show (scanLocs "<loc>https://x/products/a</loc><loc>https://x/products/c</loc>".data).map
      List.asString = _
    rw [show "<loc>https://x/products/a</loc><loc>https://x/products/c</loc>".data
        = buildXml ["https://x/products/a".data, "https://x/products/c".data] from rfl,
      scanLocs_buildXml _ (by decide)]
    decide
  have hcoll : collectedUrls
      ["<loc>https://x/products/a</loc><loc>https://x/products/b</loc>",
       "<loc>https://x/products/a</loc><loc>https://x/products/c</loc>"]
      = ["https://x/products/a", "https://x/products/b",
         "https://x/products/a", "https://x/products/c"] := by
    unfold collectedUrls
    simp only [List.map_cons, List.map_nil, h2, h3]
    decide
  constructor
  · exact (claim_C6_dedup _).1
  · apply ((claim_C6_dedup _).2.2.2 _).2
    refine ⟨?_, by decide, by decide⟩
    rw [hcoll]
    decide

/-! ## C8: Shopify minor-unit price conversion -/

/-- C8. The claim says every variant whose minor-unit integer price is
given yields that integer divided by 100 at two decimals. A price of 0 is
given but falsy, so the code yields the empty string instead of "0.00". -/
theorem claim_C8_counterexample :
    shopifyVariantPrice (some 0) = "" ∧ centsToFixed2 0 = "0.00" ∧
    ("" : String) ≠ "0.00" := by
  refine ⟨by decide, by decide, by decide⟩

/-- C8 (amended). For a given non-zero minor-unit integer price, the
derived price string is the integer divided by 100 rendered with exactly
two decimal digits: an integer part `a` and a two-digit fraction `b` with
`100 * a + b` recovering the price; a zero price yields the empty string. -/
theorem claim_C8_amended (p : Nat) (hp : 0 < p) :
    ∃ a b, shopifyVariantPrice (some p)
        = toString a ++ "." ++ (if b < 10 then "0" else "") ++ toString b
      ∧ b < 100 ∧ 100 * a + b = p := by
  refine ⟨p / 100, p % 100, ?_, Nat.mod_lt _ (by norm_num), by omega⟩
  have hne : p ≠ 0 := Nat.pos_iff_ne_zero.mp hp
  simp [shopifyVariantPrice, centsToFixed2, hne]

/-- C8 witness: 1999 yields "19.99". -/
theorem claim_C8_witness :
    shopifyVariantPrice (some 1999) = "19.99" ∧
    (∃ a b, shopifyVariantPrice (some 1999)
        = toString a ++ "." ++ (if b < 10 then "0" else "") ++ toString b
      ∧ b < 100 ∧ 100 * a + b = 1999) :=
  ⟨by decide, claim_C8_amended 1999 (by decide)⟩

/-! ## C2: availability normalization -/

theorem jsSplitChar_cons_self (sep : Char) (t : List Char) :
    jsSplitChar sep (sep :: t) = [] :: jsSplitChar sep t := by
  simp [jsSplitChar]

theorem jsSplitChar_cons_ne (sep c : Char) (t : List Char) (h : c ≠ sep)
    (h0 : List Char) (r : List (List Char)) (hq : jsSplitChar sep t = h0 :: r) :
    jsSplitChar sep (c :: t) = (c :: h0) :: r := by
  simp [jsSplitChar, h, hq]

theorem jsSplitChar_no_sep (sep : Char) :
    ∀ l : List Char, sep ∉ l → jsSplitChar sep l = [l] := by
  intro l
  induction l with
  | nil => intro _; rfl
  | cons c t ih =>
    intro h
    have hc : c ≠ sep := fun e => h (e ▸ List.mem_cons_self c t)
    have ht : sep ∉ t := fun hm => h (List.mem_cons_of_mem _ hm)
    simp [jsSplitChar, hc, ih ht]

theorem jsSplitChar_ne_nil (sep : Char) : ∀ l : List Char, jsSplitChar sep l ≠ [] := by
  intro l
  cases l with
  | nil => simp [jsSplitChar]
  | cons c t =>
    by_cases hc : c = sep
    · subst hc
      rw [jsSplitChar_cons_self]
      simp
    · rcases hq : jsSplitChar sep t with _ | ⟨h0, r⟩
      · exact absurd hq (by
          cases t with
          | nil => simp [jsSplitChar]
          | cons d u =>
            by_cases hd : d = sep
            · subst hd; rw [jsSplitChar_cons_self]; simp
            · intro he
              rcases hq2 : jsSplitChar sep u with _ | ⟨h1, r1⟩
              · simp [jsSplitChar, hd, hq2] at he
              · rw [jsSplitChar_cons_ne sep d u hd h1 r1 hq2] at he
                simp at he)
      · rw [jsSplitChar_cons_ne sep c t hc h0 r hq]
        simp

theorem jsSplitChar_two_le (sep : Char) :
    ∀ l : List Char, sep ∈ l → 2 ≤ (jsSplitChar sep l).length := by
  intro l
  induction l with
  | nil => intro h; simp at h
  | cons c t ih =>
    intro h
    by_cases hc : c = sep
    · subst hc
      rw [jsSplitChar_cons_self]
      have hnn := jsSplitChar_ne_nil c t
      have h1 : 1 ≤ (jsSplitChar c t).length := by
        cases hq : jsSplitChar c t with
        | nil => exact absurd hq hnn
        | cons a r => simp
      simp only [List.length_cons]
      omega
    · have ht : sep ∈ t := by
        rcases List.mem_cons.1 h with e | m
        · exact absurd e.symm hc
        · exact m
      rcases hq : jsSplitChar sep t with _ | ⟨a, r⟩
      · exact absurd hq (jsSplitChar_ne_nil sep t)
      · rw [jsSplitChar_cons_ne sep c t hc a r hq]
        have := ih ht
        rw [hq] at this
        simpa using this

theorem getLastD_irrel {α : Type} (L : List α) (d e : α) (h : L ≠ []) :
    L.getLastD d = L.getLastD e := by
  cases L with
  | nil => exact absurd rfl h
  | cons a t => rfl

theorem jsSplitChar_getLast (a b : List Char) (h : '/' ∉ b) :
    (jsSplitChar '/' (a ++ '/' :: b)).getLastD [] = b := by
  induction a with
  | nil =>
    rw [List.nil_append, jsSplitChar_cons_self, jsSplitChar_no_sep '/' b h]
    rfl
  | cons c a' ih =>
    by_cases hc : c = '/'
    · subst hc
      rw [List.cons_append, jsSplitChar_cons_self, List.getLastD_cons]
      have hne := jsSplitChar_ne_nil '/' (a' ++ '/' :: b)
      rw [getLastD_irrel _ _ [] hne]
      exact ih
    · rcases hq : jsSplitChar '/' (a' ++ '/' :: b) with _ | ⟨h0, r⟩
      · exact absurd hq (jsSplitChar_ne_nil _ _)
      · rw [List.cons_append, jsSplitChar_cons_ne '/' c (a' ++ '/' :: b) hc h0 r hq]
        have hr : r ≠ [] := by
          have h2 := jsSplitChar_two_le '/' (a' ++ '/' :: b) (by simp)
          rw [hq] at h2
          intro e
          subst e
          simp at h2
        rw [List.getLastD_cons, getLastD_irrel r (c :: h0) h0 hr]
        have := ih
        rw [hq, List.getLastD_cons] at this
        exact this

theorem splitPopSlashL_last (a b : List Char) (h : '/' ∉ b) :
    splitPopSlashL (a ++ '/' :: b) = b := by
  unfold splitPopSlashL
  have hc : (a ++ '/' :: b).contains '/' = true := by
    simp [List.contains]
  rw [if_pos hc]
  exact jsSplitChar_getLast a b h

theorem finalOverride_name (r : ProductRecord) : (finalOverride r).name = r.name := by
  unfold finalOverride
  split <;> rfl

theorem finalOverride_marker (r : ProductRecord)
    (h : strContains "[discontinued]" (jsLower r.name) = true) :
    (finalOverride r).availability = "Discontinued" := by
  unfold finalOverride
  have hne : r.name ≠ "" := by
    intro e
    rw [e] at h
    exact absurd h (by decide)
  rw [if_pos]
  simp [hne, h]

/-- C2. The claim's two normalization clauses conflict on a text carrying
both markers: the code tests the in-stock markers first, so a detected
text containing "sold out" (which the claim sends to `OutOfStock`) but
also "units left" is normalized to `InStock`. -/
theorem claim_C2_counterexample :
    strContains "sold out" (jsLower "Sold out - only 2 units left") = true ∧
    (extract (fun s => s) snapBothMarkers).availability = "InStock" ∧
    ("InStock" : String) ≠ "OutOfStock" := by
  refine ⟨by decide, by decide, by decide⟩

/-- C2 (amended). (a) A structured-data availability value of the form
`a ++ "/" ++ b` with `b` slash-free is reduced to its final path segment
`b`; (b) a detected text containing "in stock" (case-insensitively) or
"units left" (case-sensitively) becomes `InStock`; (c) otherwise one
containing "out of stock" or "sold out" (case-insensitively) becomes
`OutOfStock`; (d) a final record whose name contains `[discontinued]`
(case-insensitively) has availability `Discontinued`, whatever the
strategies produced. -/
theorem claim_C2_amended :
    (∀ a b : List Char, '/' ∉ b →
      splitPopSlash (a ++ '/' :: b).asString = b.asString) ∧
    (∀ t : String,
      (strContains "in stock" (jsLower t) || strContains "units left" t) = true →
      normalizeAvailText t = "InStock") ∧
    (∀ t : String,
      (strContains "in stock" (jsLower t) || strContains "units left" t) = false →
      (strContains "out of stock" (jsLower t) || strContains "sold out" (jsLower t)) = true →
      normalizeAvailText t = "OutOfStock") ∧
    (∀ (dh : String → String) (snap : PageSnapshot),
      strContains "[discontinued]" (jsLower (extract dh snap).name) = true →
      (extract dh snap).availability = "Discontinued") := by
  refine ⟨?_, ?_, ?_, ?_⟩
  · intro a b h
    unfold splitPopSlash
    rw [show ((a ++ '/' :: b).asString.data) = a ++ '/' :: b from rfl]
    rw [splitPopSlashL_last a b h]
  · intro t h
    simp [normalizeAvailText, h]
  · intro t h1 h2
    simp [normalizeAvailText, h1, h2]
  · intro dh snap h
    have h2 : strContains "[discontinued]" (jsLower (finalOverride (stage3 snap
        ((stage2 dh snap (stage1 dh snap)).getD emptyRecord))).name) = true := h
    rw [finalOverride_name] at h2
    exact finalOverride_marker _ h2

/-- C2 witness: the three spec examples. -/
theorem claim_C2_witness :
    splitPopSlash "https://schema.org/InStock" = "InStock" ∧
    normalizeAvailText "Currently Out of Stock" = "OutOfStock" ∧
    (extract (fun s => s) snapFullLd).availability = "Discontinued" := by
  refine ⟨?_, ?_, ?_⟩
  · have h := claim_C2_amended.1 "https://schema.org".data "InStock".data (by decide)
    exact h
  · exact claim_C2_amended.2.2.1 "Currently Out of Stock" (by decide) (by decide)
  · exact claim_C2_amended.2.2.2 (fun s => s) snapFullLd (by decide)

/-! ## C1: strategy priority never overwrites non-empty fields -/

theorem stage2_preserves (dh : String → String) (snap : PageSnapshot) (r : ProductRecord) :
    ∃ r', stage2 dh snap (some r) = some r' ∧ r'.name = r.name ∧
      r'.availability = r.availability ∧ (r.sku ≠ "" → r'.sku = r.sku) ∧
      (r.price ≠ "" → r'.price = r.price) := by
  by_cases hsku : r.sku = ""
  · cases hm : snap.shopifyMeta with
    | none =>
      refine ⟨r, ?_, rfl, rfl, fun _ => rfl, fun _ => rfl⟩
      simp [stage2, hm, hsku]
    | some sp =>
      cases hv : sp.variants with
      | nil =>
        refine ⟨r, ?_, rfl, rfl, fun _ => rfl, fun _ => rfl⟩
        simp [stage2, hm, hv, hsku]
      | cons v vs =>
        refine ⟨{ r with
            sku := decodeS dh v.vsku,
            price := if r.price = "" then shopifyVariantPrice v.vprice else r.price },
          ?_, rfl, rfl, ?_, ?_⟩
        · simp [stage2, hm, hv, hsku]
        · intro hs; exact absurd hsku hs
        · intro hp; simp [hp]
  · refine ⟨r, ?_, rfl, rfl, fun _ => rfl, fun _ => rfl⟩
    simp [stage2, hsku]

theorem stage3_preserves (snap : PageSnapshot) (r : ProductRecord) :
    (r.name ≠ "" → (stage3 snap r).name = r.name) ∧
    (r.sku ≠ "" → (stage3 snap r).sku = r.sku) ∧
    (r.price ≠ "" → (stage3 snap r).price = r.price) ∧
    (r.availability ≠ "" → (stage3 snap r).availability = r.availability) := by
  refine ⟨fun h => ?_, fun h => ?_, fun h => ?_, fun h => ?_⟩ <;>
    simp [stage3, h]

theorem finalOverride_keeps (r : ProductRecord) :
    (finalOverride r).name = r.name ∧ (finalOverride r).sku = r.sku ∧
    (finalOverride r).price = r.price ∧
    ((finalOverride r).availability = r.availability ∨
      (finalOverride r).availability = "Discontinued") := by
  unfold finalOverride
  split
  · exact ⟨rfl, rfl, rfl, Or.inr rfl⟩
  · exact ⟨rfl, rfl, rfl, Or.inl rfl⟩

/-- C1. A field filled with a non-empty value by an earlier strategy is
never overwritten later: strategy 2 keeps an existing record's name and
availability and fills only an empty SKU/price; the DOM fallbacks fill
only empty fields; the final override changes nothing but availability,
and only to `Discontinued`. In particular a non-empty structured-data
price (and name, and SKU) survives to the final record, and a non-empty
structured-data availability survives except for the override. -/
theorem claim_C1_priority (dh : String → String) (snap : PageSnapshot) :
    (∀ r, stage1 dh snap = some r →
      ∃ r', stage2 dh snap (some r) = some r' ∧ r'.name = r.name ∧
        r'.availability = r.availability ∧ (r.sku ≠ "" → r'.sku = r.sku) ∧
        (r.price ≠ "" → r'.price = r.price)) ∧
    (∀ r : ProductRecord,
      (r.name ≠ "" → (stage3 snap r).name = r.name) ∧
      (r.sku ≠ "" → (stage3 snap r).sku = r.sku) ∧
      (r.price ≠ "" → (stage3 snap r).price = r.price) ∧
      (r.availability ≠ "" → (stage3 snap r).availability = r.availability)) ∧
    (∀ r : ProductRecord, (finalOverride r).name = r.name ∧ (finalOverride r).sku = r.sku ∧
      (finalOverride r).price = r.price ∧
      ((finalOverride r).availability = r.availability ∨
        (finalOverride r).availability = "Discontinued")) ∧
    (∀ r, stage1 dh snap = some r → r.price ≠ "" → (extract dh snap).price = r.price) ∧
    (∀ r, stage1 dh snap = some r → r.name ≠ "" → (extract dh snap).name = r.name) ∧
    (∀ r, stage1 dh snap = some r → r.sku ≠ "" → (extract dh snap).sku = r.sku) ∧
    (∀ r, stage1 dh snap = some r → r.availability ≠ "" →
      ((extract dh snap).availability = r.availability ∨
        (extract dh snap).availability = "Discontinued")) := by
  have hmain : ∀ r, stage1 dh snap = some r →
      ∃ r', stage2 dh snap (some r) = some r' ∧ extract dh snap = finalOverride (stage3 snap r')
        ∧ r'.name = r.name ∧ r'.availability = r.availability ∧
        (r.sku ≠ "" → r'.sku = r.sku) ∧ (r.price ≠ "" → r'.price = r.price) := by
    intro r h1
    obtain ⟨r', hs2, hn, ha, hs, hp⟩ := stage2_preserves dh snap r
    refine ⟨r', hs2, ?_, hn, ha, hs, hp⟩
    unfold extract
    rw [h1, hs2]
    rfl
  refine ⟨fun r h1 => stage2_preserves dh snap r, stage3_preserves snap,
    finalOverride_keeps, ?_, ?_, ?_, ?_⟩
  · intro r h1 hpr
    obtain ⟨r', _, hext, hn, ha, hs, hp⟩ := hmain r h1
    rw [hext, (finalOverride_keeps _).2.2.1, (stage3_preserves snap r').2.2.1 ?_, hp hpr]
    rw [hp hpr]
    exact hpr
  · intro r h1 hnm
    obtain ⟨r', _, hext, hn, ha, hs, hp⟩ := hmain r h1
    rw [hext, (finalOverride_keeps _).1, (stage3_preserves snap r').1 ?_, hn]
    rw [hn]
    exact hnm
  · intro r h1 hsk
    obtain ⟨r', _, hext, hn, ha, hs, hp⟩ := hmain r h1
    rw [hext, (finalOverride_keeps _).2.1, (stage3_preserves snap r').2.1 ?_, hs hsk]
    rw [hs hsk]
    exact hsk
  · intro r h1 hav
    obtain ⟨r', _, hext, hn, ha, hs, hp⟩ := hmain r h1
    rw [hext]
    rcases (finalOverride_keeps (stage3 snap r')).2.2.2 with heq | hd
    · left
      rw [heq, (stage3_preserves snap r').2.2.2 ?_, ha]
      rw [ha]
      exact hav
    · right
      exact hd

/-- C1 witness: with a structured-data price of "9.99" on the page and a
competing DOM price meta tag, the final record keeps "9.99". -/
theorem claim_C1_witness :
    (extract (fun s => s) snapFullLd).price = "9.99" := by
  exact (claim_C1_priority (fun s => s) snapFullLd).2.2.2.1
    { name := "Widget [Discontinued]", sku := "W1", price := "9.99", availability := "InStock" }
    (by decide) (by decide)

/-! ## C4: platform-metadata name derivation -/

/-- C4. The claim extends the name derivation to the case where the
structured-data strategy returned a Product record with an empty name; in
the code that branch only fills SKU and price, leaving the name empty, so
the final name comes from the DOM `h1` fallback rather than the variant
name or the document title. -/
theorem claim_C4_counterexample :
    stage1 (fun s => s) snapEmptyLdName
      = some { name := "", sku := "", price := "", availability := "" } ∧
    snapEmptyLdName.shopifyMeta.isSome = true ∧
    (extract (fun s => s) snapEmptyLdName).name = "H1 Name" ∧
    ("H1 Name" : String) ≠ "Variant Name" ∧ ("H1 Name" : String) ≠ "Doc Title" := by
  refine ⟨by decide, by decide, by decide, by decide, by decide⟩

/-- C4 (amended). When the platform-metadata strategy applies and the
structured-data strategy produced *no record at all*, the created record's
name is the decoded variant name when non-empty, else the handle for a
"Case"-type product, else the document title. When strategy 1 produced a
record (even with an empty name), strategy 2 leaves the name unchanged. -/
theorem claim_C4_amended (dh : String → String) (snap : PageSnapshot)
    (sp : ShopifyProduct) (v : ShopifyVariant) (vs : List ShopifyVariant)
    (hmeta : snap.shopifyMeta = some sp) (hvar : sp.variants = v :: vs) :
    (stage1 dh snap = none →
      stage2 dh snap (stage1 dh snap) = some
        { name := decodeS dh (shopifyName sp v snap.title),
          sku := decodeS dh v.vsku,
          price := shopifyVariantPrice v.vprice, availability := "" }) ∧
    (v.vname ≠ "" → shopifyName sp v snap.title = v.vname) ∧
    (v.vname = "" → (sp.ptype ≠ "" && strContains "Case" sp.ptype) = true →
      shopifyName sp v snap.title = sp.handle) ∧
    (v.vname = "" → (sp.ptype ≠ "" && strContains "Case" sp.ptype) = false →
      shopifyName sp v snap.title = snap.title) ∧
    (∀ r : ProductRecord, r.name = "" →
      ∃ r', stage2 dh snap (some r) = some r' ∧ r'.name = "") := by
  refine ⟨?_, ?_, ?_, ?_, ?_⟩
  · intro h1
    rw [h1]
    simp [stage2, hmeta, hvar]
  · intro h
    unfold shopifyName
    split <;> simp [h]
  · intro h hc
    unfold shopifyName
    rw [if_pos hc]
    simp [h]
  · intro h hc
    unfold shopifyName
    rw [if_neg (fun habs => by rw [hc] at habs; exact Bool.false_ne_true habs)]
    simp [h]
  · intro r hname
    obtain ⟨r', hs2, hn, _, _, _⟩ := stage2_preserves dh snap r
    exact ⟨r', hs2, by rw [hn, hname]⟩

/-- C4 witness: with Shopify metadata only, the created record carries the
variant name, SKU and converted price. -/
theorem claim_C4_witness :
    stage2 (fun s => s) snapShopifyOnly (stage1 (fun s => s) snapShopifyOnly) = some
      { name := "Variant Name", sku := "SKU1", price := "19.99", availability := "" } := by
  have h := (claim_C4_amended (fun s => s) snapShopifyOnly
      { ptype := "", handle := "hdl",
        variants := [{ vname := "Variant Name", vsku := "SKU1", vprice := some 1999 }] }
      { vname := "Variant Name", vsku := "SKU1", vprice := some 1999 } []
      (by decide) (by decide)).1 (by decide)
  rw [h]
  decide

/-! ## Orchestrator lemmas (C3, C7, C10) -/

theorem take_drop_chunk {α : Type} (L : List α) (i k : Nat) (h : i ≤ k) :
    (L.take k).drop i ++ L.drop k = L.drop i := by
  by_cases hL : L.length ≤ i
  · rw [List.drop_eq_nil_of_le hL,
      List.drop_eq_nil_of_le (le_trans hL h),
      List.drop_eq_nil_of_le (by
        have := List.length_take k L
        omega)]
    rfl
  · conv_rhs => rw [← List.take_append_drop k L]
    rw [List.drop_append_eq_append_drop]
    have hlen : (L.take k).length = min k L.length := List.length_take k L
    have hz : i - (L.take k).length = 0 := by omega
    rw [hz, List.drop_zero]

theorem crawlBatches_flatten (urls : List String) (limit : Nat) :
    ∀ i, (crawlBatches urls limit i).flatten = (urls.take limit).drop i := by
  refine crawlBatches.induct urls limit
    (fun i => (crawlBatches urls limit i).flatten = (urls.take limit).drop i) ?_ ?_
  · intro i hlt ih
    rw [crawlBatches, if_pos hlt, List.flatten_cons, ih]
    unfold jsSlice
    rw [show urls.take (min (i + BATCH_SIZE) limit) = (urls.take limit).take (i + BATCH_SIZE) by
      rw [List.take_take]]
    exact take_drop_chunk (urls.take limit) i (i + BATCH_SIZE) (Nat.le_add_right _ _)
  · intro i hge
    rw [crawlBatches, if_neg hge]
    have hl : (urls.take limit).length ≤ i := by
      have := List.length_take limit urls
      omega
    rw [List.drop_eq_nil_of_le hl]
    rfl

theorem attemptedUrls_eq (urls : List String) (limit : Nat) :
    attemptedUrls urls limit = urls.take limit := by
  unfold attemptedUrls
  rw [crawlBatches_flatten urls limit 0, List.drop_zero]

theorem batchRecords_eq (outcome : String → Option ProductRecord) (b : List String) :
    batchRecords outcome b = b.filterMap (scrapeOne outcome) := by
  unfold batchRecords
  rw [List.filterMap_map]
  rfl

theorem runRecords_eq (outcome : String → Option ProductRecord) (urls : List String)
    (limit : Nat) :
    runRecords outcome urls limit = (attemptedUrls urls limit).filterMap (scrapeOne outcome) := by
  unfold runRecords attemptedUrls
  rw [show (crawlBatches urls limit 0).map (batchRecords outcome)
      = (crawlBatches urls limit 0).map (fun b => b.filterMap (scrapeOne outcome)) by
    apply List.map_congr_left
    intro b _
    exact batchRecords_eq outcome b]
  rw [← List.filterMap_flatten]

theorem length_filterMap_eq_countP {α β : Type} (f : α → Option β) (l : List α) :
    (l.filterMap f).length = (l.filter (fun a => (f a).isSome)).length := by
  induction l with
  | nil => rfl
  | cons a t ih =>
    cases hf : f a with
    | none => simp [List.filterMap_cons, List.filter_cons, hf, ih]
    | some b => simp [List.filterMap_cons, List.filter_cons, hf, ih]

/-! ## CSV sink lemmas (C9, C10) -/

theorem escQuotes_unesc (s : List Char) : unescQuotes (escQuotes s) = s := by
  induction s with
  | nil => rfl
  | cons c t ih =>
    by_cases hc : c = '"'
    · subst hc
      show unescQuotes ('"' :: '"' :: escQuotes t) = '"' :: t
      rw [show unescQuotes ('"' :: '"' :: escQuotes t)
          = '"' :: unescQuotes (escQuotes t) by simp [unescQuotes], ih]
    · show unescQuotes ((if c = '"' then '"' :: '"' :: escQuotes t else c :: escQuotes t)) = c :: t
      rw [if_neg hc]
      cases he : escQuotes t with
      | nil =>
        rw [show unescQuotes [c] = [c] from rfl]
        have : t = [] := by
          cases t with
          | nil => rfl
          | cons d u =>
            exfalso
            by_cases hd : d = '"' <;> simp [escQuotes, hd] at he
        rw [this]
      | cons d u =>
        rw [show unescQuotes (c :: d :: u)
            = if c = '"' ∧ d = '"' then '"' :: unescQuotes u else c :: unescQuotes (d :: u)
          from rfl]
        rw [if_neg (fun hand => hc hand.1), ← he, ih]

theorem csvLine_head (r : ProductRecord) : (csvLine r).data.head? = some '"' := by
  unfold csvLine
  rw [show ("\"" ++ jsEsc r.name ++ "\",\"" ++ jsEsc r.sku ++ "\",\"" ++ jsEsc r.price
      ++ "\",\"" ++ jsEsc r.availability ++ "\"")
    = "\"" ++ (jsEsc r.name ++ "\",\"" ++ jsEsc r.sku ++ "\",\"" ++ jsEsc r.price
      ++ "\",\"" ++ jsEsc r.availability ++ "\"") by
    simp [String.append_assoc]]
  rw [String.data_append]
  rfl

theorem csvLine_ne_empty (r : ProductRecord) : csvLine r ≠ "" := by
  intro h
  have := csvLine_head r
  rw [h] at this
  simp at this

theorem strConcat_append (l1 l2 : List String) :
    strConcat (l1 ++ l2) = strConcat l1 ++ strConcat l2 := by
  induction l1 with
  | nil => simp [strConcat]
  | cons a t ih =>
    show a ++ strConcat (t ++ l2) = (a ++ strConcat t) ++ strConcat l2
    rw [ih, String.append_assoc]

theorem blockString_eq (lines : List String) :
    blockString lines = strConcat (lines.map (fun s => s ++ "\n")) := by
  induction lines with
  | nil => rfl
  | cons a t ih =>
    cases t with
    | nil =>
      show blockString [a] = strConcat [a ++ "\n"]
      unfold blockString jsJoin strConcat strConcat
      simp
    | cons b u =>
      have hstep : blockString (a :: b :: u) = (a ++ "\n") ++ blockString (b :: u) := by
        unfold blockString
        simp only [List.length_cons, Nat.succ_sub_one]
        rw [if_pos (by simp), if_pos (by simp)]
        show jsJoin "\n" (a :: b :: u) ++ "\n" = a ++ "\n" ++ (jsJoin "\n" (b :: u) ++ "\n")
        rw [show jsJoin "\n" (a :: b :: u) = a ++ "\n" ++ jsJoin "\n" (b :: u) from rfl]
        rw [String.append_assoc, String.append_assoc]
      rw [hstep, ih]
      show _ = strConcat ((a ++ "\n") :: (b :: u).map (fun s => s ++ "\n"))
      unfold strConcat
      rfl

theorem strConcat_blocks (bs : List (List ProductRecord)) :
    strConcat (bs.map (fun rs => blockString (rs.map csvLine)))
      = strConcat (bs.flatten.map (fun r => csvLine r ++ "\n")) := by
  induction bs with
  | nil => rfl
  | cons b t ih =>
    show blockString (b.map csvLine)
        ++ strConcat (t.map (fun rs => blockString (rs.map csvLine))) = _
    rw [blockString_eq, ih, List.flatten_cons, List.map_append, strConcat_append,
      List.map_map]
    rfl

theorem fileContent_eq (outcome : String → Option ProductRecord) (urls : List String)
    (limit : Nat) :
    fileContent outcome urls limit
      = csvHeader ++ strConcat ((runRecords outcome urls limit).map
          (fun r => csvLine r ++ "\n")) := by
  unfold fileContent runRecords
  rw [show ((crawlBatches urls limit 0).map fun b =>
      blockString ((batchRecords outcome b).map csvLine))
      = ((crawlBatches urls limit 0).map (batchRecords outcome)).map
          (fun rs => blockString (rs.map csvLine)) by
    rw [List.map_map]
    rfl]
  rw [strConcat_blocks]

/-! ## C3: a row if and only if the URL's extraction succeeded -/

/-- C3. The records of a run are exactly the successful outcomes of the
attempted URLs, in order (`filterMap`): a failing URL contributes nothing
and removes nothing else, also within its batch; hence the row count never
exceeds the attempted count, and for non-blank URLs (as discovery
guarantees) it equals the number of URLs whose outcome succeeded. -/
theorem claim_C3_rows (outcome : String → Option ProductRecord) (urls : List String)
    (limit : Nat) :
    runRecords outcome urls limit
      = (attemptedUrls urls limit).filterMap (scrapeOne outcome) ∧
    (∀ b : List String, batchRecords outcome b = b.filterMap (scrapeOne outcome)) ∧
    (runRecords outcome urls limit).length ≤ (attemptedUrls urls limit).length ∧
    ((∀ u ∈ urls, u ≠ "" ∧ jsTrim u ≠ "") →
      (runRecords outcome urls limit).length
        = ((attemptedUrls urls limit).filter (fun u => (outcome u).isSome)).length) := by
  refine ⟨runRecords_eq outcome urls limit, batchRecords_eq outcome, ?_, ?_⟩
  · rw [runRecords_eq]
    exact List.length_filterMap_le _ _
  · intro hgood
    rw [runRecords_eq]
    have hmem : ∀ u ∈ attemptedUrls urls limit, scrapeOne outcome u = outcome u := by
      intro u hu
      rw [attemptedUrls_eq] at hu
      have hu' : u ∈ urls := List.mem_of_mem_take hu
      obtain ⟨h1, h2⟩ := hgood u hu'
      unfold scrapeOne
      rw [if_neg]
      simp [h1, h2]
    rw [List.filterMap_congr hmem, length_filterMap_eq_countP]

/-- C3 witness: three URLs, the middle one failing; exactly the two
successful rows survive. -/
theorem claim_C3_witness :
    runRecords (fun u => if u = "b" then none else some ⟨u, "", "", ""⟩) ["a", "b", "c"] 3
      = [⟨"a", "", "", ""⟩, ⟨"c", "", "", ""⟩] ∧
    (runRecords (fun u => if u = "b" then none else some ⟨u, "", "", ""⟩) ["a", "b", "c"] 3).length
      = ((attemptedUrls ["a", "b", "c"] 3).filter
          (fun u => ((fun u => if u = "b" then none else some (⟨u, "", "", ""⟩ : ProductRecord)) u).isSome)).length := by
  constructor
  · rw [(claim_C3_rows (fun u => if u = "b" then none else some ⟨u, "", "", ""⟩) ["a", "b", "c"] 3).1,
      attemptedUrls_eq]
    decide
  · exact (claim_C3_rows (fun u => if u = "b" then none else some ⟨u, "", "", ""⟩)
      ["a", "b", "c"] 3).2.2.2 (by decide)

/-! ## C7: limit resolution and attempted prefix -/

/-- C7. The batch loop attempts exactly the first `limit` URLs of the
discovered list where `limit` is `min maxProducts count` for a positive
maximum and the full count otherwise; consequently at most `limit` rows
are ever produced. -/
theorem claim_C7_limit (maxProducts : Int) (urls : List String)
    (outcome : String → Option ProductRecord) :
    attemptedUrls urls (effLimit maxProducts urls.length)
      = urls.take (effLimit maxProducts urls.length) ∧
    (attemptedUrls urls (effLimit maxProducts urls.length)).length
      = effLimit maxProducts urls.length ∧
    (0 < maxProducts →
      effLimit maxProducts urls.length = min maxProducts.toNat urls.length) ∧
    (¬ 0 < maxProducts → effLimit maxProducts urls.length = urls.length) ∧
    (runRecords outcome urls (effLimit maxProducts urls.length)).length
      ≤ effLimit maxProducts urls.length := by
  have hle : effLimit maxProducts urls.length ≤ urls.length := by
    unfold effLimit
    split
    · exact Nat.min_le_right _ _
    · exact Nat.le_refl _
  refine ⟨attemptedUrls_eq urls _, ?_, ?_, ?_, ?_⟩
  · rw [attemptedUrls_eq, List.length_take]
    omega
  · intro hpos
    unfold effLimit
    rw [if_pos hpos]
  · intro hneg
    unfold effLimit
    rw [if_neg hneg]
  · rw [runRecords_eq]
    have h1 := List.length_filterMap_le (scrapeOne outcome) (attemptedUrls urls (effLimit maxProducts urls.length))
    have h2 : (attemptedUrls urls (effLimit maxProducts urls.length)).length
        = effLimit maxProducts urls.length := by
      rw [attemptedUrls_eq, List.length_take]
      omega
    omega

/-- C7 witness: with `maxProducts = 5` and 20 discovered URLs, exactly 5
URLs are attempted and at most 5 rows are produced. -/
theorem claim_C7_witness :
    (attemptedUrls ((List.range 20).map toString)
      (effLimit 5 ((List.range 20).map toString).length)).length = 5 ∧
    (runRecords (fun u => some ⟨u, "", "", ""⟩) ((List.range 20).map toString)
      (effLimit 5 ((List.range 20).map toString).length)).length ≤ 5 := by
  have h := claim_C7_limit 5 ((List.range 20).map toString) (fun u => some ⟨u, "", "", ""⟩)
  have he : effLimit 5 ((List.range 20).map toString).length = 5 := by decide
  constructor
  · rw [h.2.1, he]
  · have := h.2.2.2.2
    rw [he] at this
    exact this

/-! ## C9: CSV formatting -/

/-- C9. The file is the header written once followed by one line per
surviving record with a trailing newline each (so every appended block is
newline-terminated and no cross-batch buffering occurs); doubling of
embedded quotes is faithful (collapsing doubled quotes recovers the
field); every line starts with a quote (in particular no line can repeat
the bare header); and the `O"Brien` example renders as specified. -/
theorem claim_C9_csv (outcome : String → Option ProductRecord) (urls : List String)
    (limit : Nat) :
    fileContent outcome urls limit
      = csvHeader ++ strConcat ((runRecords outcome urls limit).map
          (fun r => csvLine r ++ "\n")) ∧
    (∀ s : List Char, unescQuotes (escQuotes s) = s) ∧
    (∀ r : ProductRecord, (csvLine r).data.head? = some '"') ∧
    csvLine { name := "O\"Brien", sku := "", price := "", availability := "" }
      = "\"O\"\"Brien\",\"\",\"\",\"\"" := by
  refine ⟨fileContent_eq outcome urls limit, escQuotes_unesc, csvLine_head, by decide⟩

/-! ## C10: an all-failing batch appends nothing -/

/-- C10. A batch whose URLs all fail appends the empty string — the file
is unchanged and no blank line appears — and since every record line is
non-empty and newline-terminated, the file never contains an empty row. -/
theorem claim_C10_empty_batch (outcome : String → Option ProductRecord)
    (urls : List String) (limit : Nat) :
    (∀ b : List String, (∀ u ∈ b, scrapeOne outcome u = none) →
      blockString ((batchRecords outcome b).map csvLine) = "") ∧
    (∀ r : ProductRecord, csvLine r ≠ "") ∧
    fileContent outcome urls limit
      = csvHeader ++ strConcat ((runRecords outcome urls limit).map
          (fun r => csvLine r ++ "\n")) := by
  refine ⟨?_, csvLine_ne_empty, fileContent_eq outcome urls limit⟩
  intro b hall
  have hnil : batchRecords outcome b = [] := by
    rw [batchRecords_eq]
    exact List.filterMap_eq_nil_iff.mpr hall
  rw [hnil]
  rfl

/-- C10 witness: a two-URL batch where both URLs fail appends nothing, and
a whole run of failures leaves the file as just the header. -/
theorem claim_C10_witness :
    blockString ((batchRecords (fun _ => none) ["u1", "u2"]).map csvLine) = "" ∧
    fileContent (fun _ => none) ["u1", "u2"] 2 = csvHeader := by
  constructor
  · exact (claim_C10_empty_batch (fun _ => none) [] 0).1 ["u1", "u2"]
      (by
        intro u _
        unfold scrapeOne
        split <;> rfl)
  · rw [(claim_C10_empty_batch (fun _ => none) ["u1", "u2"] 2).2.2,
      runRecords_eq, attemptedUrls_eq]
    decide

end DataFinder
